import Mathlib

/-! Shallow embedding of the real-time extraction orchestrator of
`backend/api/tabular_review.py` (FastAPI + Supabase + Gemini), together with
proofs of its correctness properties.

Conventions:
* Supabase tables are lists of records; the DB-generated surrogate `id`
  column and the timestamp columns are omitted because no property
  depends on them (the upsert key is `review_id,file_id,column_id`).
* Python `float` confidences are modelled as `Rat`.
* Python strings are Lean `String`s; the slice `content[:10000]` is `pySlice`.
* The asynchronous pipeline (`processing_queue` → `processing_worker` →
  `result_queue` → `result_sender_worker`) is modelled by handling the
  queued jobs one at a time (`run_jobs`): each job goes through
  `_process_single_cell` and, when it yields a result, through the body of
  `result_sender_worker` (store, send `cell_update`, completion check).
* Nondeterministic external collaborators (document store content, the
  Gemini response, an unhandled exception) are oracle fields on `Job`.
-/

namespace TabularReview

/-- One row of the `tabular_review_results` table.  Fields follow
`store_result_in_database`'s `result_record`; the uuid `id`, `created_at`
and `updated_at` are omitted (no claim depends on them). -/
structure ResultRow where
  review_id : String
  file_id : String
  column_id : String
  extracted_value : Option String
  confidence_score : Rat
  source_reference : String
deriving DecidableEq, Repr

/-- The upsert identity `review_id,file_id,column_id` (the `on_conflict`
key of the results table). -/
def cellId (r : ResultRow) : String × String × String :=
  (r.review_id, r.file_id, r.column_id)

/-- Boolean test that two rows collide on the upsert identity. -/
def sameCell (a b : ResultRow) : Bool :=
  a.review_id == b.review_id && a.file_id == b.file_id && a.column_id == b.column_id

/-- `store_result_in_database`: upsert into `tabular_review_results` with
`on_conflict="review_id,file_id,column_id"` — an existing row with the same
identity is overwritten, otherwise the row is inserted. -/
def store_result_in_database (tbl : List ResultRow) (r : ResultRow) : List ResultRow :=
  if tbl.any (fun x => sameCell x r) then
    tbl.map (fun x => if sameCell x r then r else x)
  else
    tbl ++ [r]

/-- One row of the `tabular_review_columns` table (uuid `id` is kept, it is
the join key for cells; `column_order` and `created_at` are omitted). -/
structure Column where
  id : String
  column_name : String
  prompt : String
  data_type : String
deriving DecidableEq, Repr

/-- The `{value, confidence, source}` object an Extraction Engine call
produces (the parsed JSON of the Gemini response). -/
structure Extraction where
  value : Option String
  confidence : Rat
  source : String
deriving DecidableEq, Repr

/-- Oracle for one Gemini call: either the response text parsed as a JSON
object with these fields, or the text failed to parse, or the call raised
(network error, timeout, quota, ...). -/
inductive EngineOutcome where
  | parsed (value : Option String) (confidence : Rat) (source : String)
  | parseFailure (raw : String)
  | raised (msg : String)
deriving DecidableEq, Repr

/-- `CellProcessor._gemini_extract`: on a parsed response return the
extraction; on a `json.JSONDecodeError` or any raised exception return the
degraded `{"value": None, "confidence": 0.0, "source": "Analysis failed"}` —
the function never propagates the error. -/
def gemini_extract (outcome : EngineOutcome) : Extraction :=
  match outcome with
  | .parsed v c s => ⟨v, c, s⟩
  | .parseFailure _ => ⟨none, 0, "Analysis failed"⟩
  | .raised _ => ⟨none, 0, "Analysis failed"⟩

/-- `outcome` is an Engine failure (parse failure or raised exception). -/
def engineFailed (outcome : EngineOutcome) : Bool :=
  match outcome with
  | .parsed _ _ _ => false
  | .parseFailure _ => true
  | .raised _ => true

/-- A message placed on `processor.processing_queue` — the dict
`{review_id, file_id, column_id, prompt, column_name, data_type, user_id}`
(the `user_id` field is dropped: it only selects the websocket recipient). -/
structure QueueItem where
  review_id : String
  file_id : String
  column_id : String
  prompt : String
  column_name : String
  data_type : String
deriving DecidableEq, Repr

/-- A queued cell job together with the oracles that determine how its
processing goes: the document content the fetch returns (empty string when
missing or unfetchable), the Engine outcome, and whether an unhandled
exception fires inside `_process_single_cell`'s `try` block. -/
structure Job where
  review_id : String
  file_id : String
  column_id : String
  prompt : String
  column_name : String
  data_type : String
  content : String
  outcome : EngineOutcome
  crash : Bool
deriving DecidableEq, Repr

def toQueueItem (j : Job) : QueueItem :=
  ⟨j.review_id, j.file_id, j.column_id, j.prompt, j.column_name, j.data_type⟩

/-- The (review, file, column) identity of a job. -/
def jobCell (j : Job) : String × String × String :=
  (j.review_id, j.file_id, j.column_id)

def itemCell (q : QueueItem) : String × String × String :=
  (q.review_id, q.file_id, q.column_id)

/-- The result dict `_process_single_cell` returns for a job whose content
fetch succeeded and whose processing did not raise (the `timestamp` field is
omitted). -/
def mkRow (j : Job) : ResultRow :=
  { review_id := j.review_id
    file_id := j.file_id
    column_id := j.column_id
    extracted_value := (gemini_extract j.outcome).value
    confidence_score := (gemini_extract j.outcome).confidence
    source_reference := (gemini_extract j.outcome).source }

/-- `CellProcessor._process_single_cell`: on an unhandled exception the
`except` clause returns `None`; when the fetched document content is falsy
(`if not document_content`) it returns `None`; otherwise it runs the Gemini
extraction and returns the result dict. -/
def process_single_cell (j : Job) : Option ResultRow :=
  if j.crash then none
  else if j.content = "" then none
  else some (mkRow j)

/-- A job that yields a result: no unhandled exception and non-empty
document content. -/
def jobOK (j : Job) : Bool :=
  !j.crash && !(j.content == "")

/-- The orchestrator's state for one review, projected from the Document
Store plus the event stream pushed to that review's websocket key:
`files` is `tabular_review_files.file_id` for the review, `columns` its
`tabular_review_columns` rows, `results` the (global) results table,
`status` the review's status column, and `events` the `type` tags of the
messages sent via `manager.send_to_review`, in order. -/
structure Store where
  review_id : String
  files : List String
  columns : List Column
  results : List ResultRow
  status : String
  events : List String
deriving DecidableEq, Repr

/-- The completion-check count: `tabular_review_results` filtered on
`review_id`, as queried by `result_sender_worker`. -/
def reviewResultCount (results : List ResultRow) (rid : String) : Nat :=
  (results.filter (fun r => r.review_id == rid)).length

/-- The body of `result_sender_worker` for one result: store it (upsert),
send the `cell_update` message, then run the completion check — when
`total_expected > 0` and the stored-result count equals
`total_files * total_columns`, set the review status to `completed` and
send the terminal `review_completed` message. -/
def handle_result (st : Store) (r : ResultRow) : Store :=
  if 0 < st.files.length * st.columns.length ∧
      reviewResultCount (store_result_in_database st.results r) r.review_id =
        st.files.length * st.columns.length then
    { st with results := store_result_in_database st.results r
              events := st.events ++ ["cell_update", "review_completed"]
              status := "completed" }
  else
    { st with results := store_result_in_database st.results r
              events := st.events ++ ["cell_update"] }

/-- One job through the pipeline: `_process_single_cell` and, when it
yields a result, the `result_sender_worker` body.  A `None` cell result is
dropped by `processing_worker` (`if result:`) and never reaches the result
queue. -/
def step_job (st : Store) (j : Job) : Store :=
  match process_single_cell j with
  | none => st
  | some r => handle_result st r

def run_jobs (st : Store) (jobs : List Job) : Store :=
  jobs.foldl step_job st

/-- The review state right after `create_review_async` has inserted the
review (status `processing`), its columns and its file links, queued the
cells, and pushed the `processing_started` message. -/
def init_store (rid : String) (files : List String) (cols : List Column) : Store :=
  { review_id := rid
    files := files
    columns := cols
    results := []
    status := "processing"
    events := ["processing_started"] }

/-- The queue messages `create_review_async` produces: one per
(file, column) pair, files in the outer loop, columns in the inner loop,
built from the column rows read back from the store. -/
def create_review_items (rid : String) (files : List String) (cols : List Column) :
    List QueueItem :=
  files.bind (fun f => cols.map (fun c =>
    ⟨rid, f, c.id, c.prompt, c.column_name, c.data_type⟩))

/-- The cell identities of the full review grid. -/
def gridCells (rid : String) (files : List String) (cols : List Column) :
    List (String × String × String) :=
  (create_review_items rid files cols).map itemCell

/-- The at-most-one-row-per-identity invariant together with containment of
all stored identities in a fixed cell set. -/
def StoreInv (grid : List (String × String × String)) (st : Store) : Prop :=
  (st.results.map cellId).Nodup ∧ ∀ c ∈ st.results.map cellId, c ∈ grid

/-- A frame pushed to a websocket client (a msgpack dict `{type, data}`).
`replayed` models the presence of a truthy `replayed` key in the dict — the
endpoint never writes one, so every frame it builds carries `false`.
`rows` is the `data` payload for result-carrying frames; the structural
payload of the `structure` frame (columns and files) is not needed by any
claim and is left out. -/
structure WireFrame where
  ftype : String
  replayed : Bool
  rows : List ResultRow
deriving DecidableEq, Repr

/-- `get_cached_results`: the stored results of the review, read back from
the results table filtered on `review_id`. -/
def get_cached_results (results : List ResultRow) (rid : String) : List ResultRow :=
  results.filter (fun r => r.review_id == rid)

/-- What `websocket_endpoint` sends a freshly accepted connection before
entering its receive loop: the `structure` frame, then — only when the
review already has stored results (`if cached_results:`) — one
`cached_results` frame holding all of them. -/
def connect_initial_frames (st : Store) : List WireFrame :=
  ⟨"structure", false, []⟩ ::
    (if get_cached_results st.results st.review_id = [] then []
     else [⟨"cached_results", false, get_cached_results st.results st.review_id⟩])

/-- Everything a client that connects in state `st` receives: the initial
frames, then whatever live frames are pushed afterwards. -/
def client_received (st : Store) (live : List WireFrame) : List WireFrame :=
  connect_initial_frames st ++ live

/-- `update_column` when the request carries a new `prompt`: verify the
column belongs to the review (else 404 and no change), update the column
row, delete the existing results of that column
(`delete().eq("review_id", ...).eq("column_id", ...)`), set the review
status back to `processing`, and push a `column_updated` message.  The
re-analysis enqueue is `analyze_new_column_items`. -/
def update_column_prompt (st : Store) (cid : String) (newPrompt : String) : Store :=
  if st.columns.any (fun c => c.id == cid) then
    { st with
      columns := st.columns.map (fun c =>
        if c.id == cid then { c with prompt := newPrompt } else c)
      results := st.results.filter
        (fun r => !(r.review_id == st.review_id && r.column_id == cid))
      status := "processing"
      events := st.events ++ ["column_updated"] }
  else st

/-- The queue messages `analyze_new_column_immediate` produces: it re-reads
the column by id from the store (empty result if the column vanished), then
queues one message per file of the review. -/
def analyze_new_column_items (st : Store) (cid : String) : List QueueItem :=
  match st.columns.find? (fun c => c.id == cid) with
  | none => []
  | some c => st.files.map (fun f =>
      ⟨st.review_id, f, c.id, c.prompt, c.column_name, c.data_type⟩)

/-- The file ids `add_files_to_review` actually adds: the requested ids that
are not already linked to the review. -/
def new_file_ids (st : Store) (requested : List String) : List String :=
  requested.filter (fun f => !(st.files.contains f))

/-- `add_files_to_review`: reject when every requested file is already in
the review (400, no change); otherwise link the new files, set the status
to `processing`, and push a `files_added` message.  Results are not
touched. -/
def add_files_to_review (st : Store) (requested : List String) : Store :=
  if new_file_ids st requested = [] then st
  else
    { st with files := st.files ++ new_file_ids st requested
              status := "processing"
              events := st.events ++ ["files_added"] }

/-- The queue messages `analyze_new_files_immediate` produces: for each new
file, one message per column of the review (columns re-read from the
store). -/
def analyze_new_files_items (st : Store) (fids : List String) : List QueueItem :=
  fids.bind (fun f => st.columns.map (fun c =>
    ⟨st.review_id, f, c.id, c.prompt, c.column_name, c.data_type⟩))

/-- State of the module-level `ThreadPoolExecutor`: how many submitted
tasks are waiting and how many are being run by worker threads.  Each
submitted task is one `_gemini_extract` call — the executor declared at
module scope is used at a single site, `run_in_executor` inside
`_process_single_cell` — so `running` is the number of Extraction Engine
calls in flight, across every review and every asyncio task of the
process. -/
structure ExecState where
  pending : Nat
  running : Nat
deriving DecidableEq, Repr

/-- The thread-pool semantics: a task may be submitted at any time, a
waiting task starts only while fewer than `maxWorkers` tasks are running
(the pool has `maxWorkers` worker threads), and a running task may finish. -/
inductive ExecStep (maxWorkers : Nat) : ExecState → ExecState → Prop
  | submit (p r : Nat) : ExecStep maxWorkers ⟨p, r⟩ ⟨p + 1, r⟩
  | start (p r : Nat) : r < maxWorkers → ExecStep maxWorkers ⟨p + 1, r⟩ ⟨p, r + 1⟩
  | finish (p r : Nat) : ExecStep maxWorkers ⟨p, r + 1⟩ ⟨p, r⟩

/-- Executor states reachable from the idle pool. -/
def ExecReachable (maxWorkers : Nat) (s : ExecState) : Prop :=
  Relation.ReflTransGen (ExecStep maxWorkers) ⟨0, 0⟩ s

/-- `executor = ThreadPoolExecutor(max_workers=20)`. -/
def executor_max_workers : Nat := 20

/-- The Python slice `s[:n]`: the first `n` characters. -/
def pySlice (s : String) (n : Nat) : String :=
  String.mk (s.data.take n)

/-- The fixed text of the Gemini analysis prompt before the document
content. -/
def analysis_prompt_intro : String :=
  "\nYou are an expert document analyst with exceptional attention to detail. Your task is to extract specific information from the provided document based on precise analysis requirements.\n\nDOCUMENT CONTENT:\n"

/-- The rest of the Gemini analysis prompt, after the document content. -/
def analysis_prompt_requirements (column_name prompt data_type : String) : String :=
  "\n\nANALYSIS REQUIREMENT:\n• Column Name: " ++ column_name ++
  "\n• Extraction Requirement: " ++ prompt ++
  "\n• Expected Data Type: " ++ data_type ++
  "\n• Relevance Threshold: High - only extract if information directly matches the requirement\n\nEXTRACTION GUIDELINES:\n\n1. RELEVANCE CRITERIA:\n   - Only extract information that DIRECTLY and CLEARLY matches the specified requirement\n   - Information must be explicitly stated or clearly derivable from the document\n   - Do NOT infer, assume, or extrapolate beyond what is explicitly present\n   - If information is ambiguous, partial, or requires significant interpretation, treat as not found\n\n2. VALUE ASSIGNMENT:\n   - If relevant information is found: Extract the precise value\n   - If NO relevant information is found: Return \"No Valid Data\"\n   - If information exists but is unclear/incomplete: Return \"No Valid Data\"\n\n3. CONFIDENCE SCORING (0.0 to 1.0):\n   - 0.9-1.0: Information is explicitly stated and unambiguous\n   - 0.7-0.8: Information is clearly stated but requires minor interpretation\n   - 0.5-0.6: Information is present but somewhat ambiguous\n   - 0.3-0.4: Information is implied or requires significant interpretation\n   - 0.0-0.2: Information is unclear, contradictory, or barely relevant\n\n4. DATA TYPE FORMATTING:\n   - text: Return as plain string, no special formatting\n   - number: Return as numeric value (integer or decimal)\n   - date: Return in YYYY-MM-DD format if possible\n   - boolean: Return as true/false\n   - currency: Return numeric value without currency symbols\n   - percentage: Return as decimal (e.g., 0.25 for 25%)\n\n5. SOURCE REFERENCE:\n   - Provide specific location: \"Page X, Paragraph Y\" or \"Section Z, Line N\"\n   - Include relevant surrounding context if helpful\n   - For tables: \"Table X, Row Y, Column Z\"\n   - For headers/titles: \"Header: [title name]\"\n\nRESPONSE FORMAT:\nReturn ONLY a valid JSON object with this exact structure. Do not include any explanatory text, comments, or additional formatting:\n\n\x7b\n    \"value\": \"extracted_value_or_No Valid Data\",\n    \"confidence\": 0.95,\n    \"source\": \"Page 1, Section 2.1, Paragraph 3\"\n\x7d\n\nCRITICAL: Your response must be valid JSON only. No other text, explanations, or markdown formatting.\n"

/-- The `analysis_prompt` f-string of `_gemini_extract`: the document part
interpolates `content[:10000]`. -/
def analysis_prompt (content prompt column_name data_type : String) : String :=
  analysis_prompt_intro ++ pySlice content 10000 ++
    analysis_prompt_requirements column_name prompt data_type

/-- Shared concrete fixtures for witnesses. -/
def sampleCol : Column :=
  ⟨"c1", "Name", "Find the name", "text"⟩

def sampleJob : Job :=
  ⟨"r1", "f1", "c1", "Find the name", "Name", "text", "doc text",
    .parsed (some "Acme") 1 "page 1", false⟩

def sampleRow : ResultRow :=
  ⟨"r1", "f1", "c1", some "Acme", 1, "page 1"⟩

def failJob : Job :=
  ⟨"r1", "f2", "c1", "Find the name", "Name", "text", "other doc",
    .parseFailure "not json", false⟩

def crashJob : Job :=
  ⟨"r1", "f1", "c1", "Find the name", "Name", "text", "doc text",
    .raised "boom", true⟩

def crashJob2 : Job :=
  ⟨"r1", "f2", "c1", "Find the name", "Name", "text", "other doc",
    .raised "boom", true⟩

def emptyContentJob : Job :=
  ⟨"r1", "f2", "c1", "Find the name", "Name", "text", "",
    .raised "never called", false⟩

/-- A fully-completed one-file one-column review, for witnesses. -/
def doneStore : Store :=
  ⟨"r1", ["f1"], [sampleCol], [sampleRow], "completed", []⟩

def editJob : Job :=
  ⟨"r1", "f1", "c1", "Find the company", "Name", "text", "doc text",
    .parsed (some "NewCo") 1 "page 2", false⟩

def addJob : Job :=
  ⟨"r1", "f2", "c1", "Find the name", "Name", "text", "doc two",
    .parsed (some "Beta") 1 "page 3", false⟩

theorem sameCell_iff {a b : ResultRow} : sameCell a b = true ↔ cellId a = cellId b := by
  simp [sameCell, cellId, Prod.ext_iff, Bool.and_eq_true, and_assoc]

theorem sameCell_self (a : ResultRow) : sameCell a a = true := by
  simp [sameCell]

/-- Upserting does not change the multiset of identities when the identity
is already present, and appends the new identity otherwise. -/
theorem store_result_ids (tbl : List ResultRow) (r : ResultRow) :
    (store_result_in_database tbl r).map cellId =
      if tbl.any (fun x => sameCell x r) then tbl.map cellId
      else tbl.map cellId ++ [cellId r] := by
  unfold store_result_in_database
  by_cases h : tbl.any (fun x => sameCell x r) = true
  · simp only [h, if_true, List.map_map]
    apply List.map_congr_left
    intro x _
    by_cases hx : sameCell x r = true
    · simp [hx, (sameCell_iff.mp hx).symm]
    · simp [hx]
  · simp [h]

/-- Upserting preserves the at-most-one-row-per-identity invariant. -/
theorem store_result_nodup {tbl : List ResultRow} (r : ResultRow)
    (h : (tbl.map cellId).Nodup) :
    ((store_result_in_database tbl r).map cellId).Nodup := by
  rw [store_result_ids]
  by_cases hmem : tbl.any (fun x => sameCell x r) = true
  · rw [if_pos hmem]; exact h
  · rw [if_neg hmem]
    rw [List.nodup_append]
    refine ⟨h, List.nodup_singleton _, ?_⟩
    intro a ha hb
    simp only [List.mem_singleton] at hb
    subst hb
    rcases List.mem_map.mp ha with ⟨x, hx, hxeq⟩
    apply hmem
    exact List.any_eq_true.mpr ⟨x, hx, sameCell_iff.mpr hxeq⟩

/-- Under the identity invariant, at most one row collides with `r`. -/
theorem countP_sameCell_le_one (tbl : List ResultRow) (r : ResultRow)
    (h : (tbl.map cellId).Nodup) :
    tbl.countP (fun x => sameCell x r) ≤ 1 := by
  induction tbl with
  | nil => simp
  | cons x xs ih =>
    rw [List.map_cons, List.nodup_cons] at h
    rw [List.countP_cons]
    by_cases hx : sameCell x r = true
    · have hzero : xs.countP (fun y => sameCell y r) = 0 := by
        rw [List.countP_eq_zero]
        intro y hy hys
        exact h.1 (List.mem_map.mpr
          ⟨y, hy, by rw [sameCell_iff.mp hys, ← sameCell_iff.mp hx]⟩)
      simp [hx, hzero]
    · simpa [hx] using ih h.2

/-- Replacing every identity-colliding row by `r` and then filtering for the
identity yields one copy of `r` per original collision. -/
theorem filter_map_replace (tbl : List ResultRow) (r : ResultRow) :
    ((tbl.map (fun x => if sameCell x r then r else x)).filter (fun x => sameCell x r)) =
      List.replicate (tbl.countP (fun x => sameCell x r)) r := by
  induction tbl with
  | nil => simp
  | cons x xs ih =>
    by_cases hx : sameCell x r = true
    · simp [hx, List.countP_cons, List.replicate_succ, sameCell_self, ih]
    · simp [hx, List.countP_cons, ih]

/-- With the identity invariant in force, an upsert leaves exactly one row
with the incoming identity, and that row is the incoming one. -/
theorem store_result_filter_self {tbl : List ResultRow} (r : ResultRow)
    (h : (tbl.map cellId).Nodup) :
    (store_result_in_database tbl r).filter (fun x => sameCell x r) = [r] := by
  unfold store_result_in_database
  by_cases hmem : tbl.any (fun x => sameCell x r) = true
  · rw [if_pos hmem, filter_map_replace]
    have hone : tbl.countP (fun x => sameCell x r) = 1 := by
      have hle := countP_sameCell_le_one tbl r h
      have hge : 0 < tbl.countP (fun x => sameCell x r) := by
        rcases List.any_eq_true.mp hmem with ⟨x0, hx0, hx0s⟩
        exact List.countP_pos_iff.mpr ⟨x0, hx0, hx0s⟩
      omega
    rw [hone]
    simp
  · rw [if_neg hmem, List.filter_append]
    have h1 : tbl.filter (fun x => sameCell x r) = [] := by
      rw [List.filter_eq_nil_iff]
      intro x hx hxs
      exact hmem (List.any_eq_true.mpr ⟨x, hx, hxs⟩)
    simp [h1, sameCell_self]


theorem process_single_cell_eq (j : Job) :
    process_single_cell j = if jobOK j then some (mkRow j) else none := by
  unfold process_single_cell jobOK
  by_cases hc : j.crash
  · simp [hc]
  · by_cases he : j.content = ""
    · simp [hc, he]
    · simp [hc, he]

theorem mkRow_cellId (j : Job) : cellId (mkRow j) = jobCell j := rfl

theorem mkRow_review_id (j : Job) : (mkRow j).review_id = j.review_id := rfl

/-- Upserting a row whose identity is absent appends it. -/
theorem store_result_fresh {tbl : List ResultRow} {r : ResultRow}
    (hfresh : ∀ x ∈ tbl, cellId x ≠ cellId r) :
    store_result_in_database tbl r = tbl ++ [r] := by
  unfold store_result_in_database
  rw [if_neg]
  intro h
  rcases List.any_eq_true.mp h with ⟨x, hx, hs⟩
  exact hfresh x hx (sameCell_iff.mp hs)

/-- When every stored row belongs to review `rid`, the completion-check
count is just the table length. -/
theorem reviewResultCount_all {results : List ResultRow} {rid : String}
    (hall : ∀ x ∈ results, x.review_id = rid) :
    reviewResultCount results rid = results.length := by
  unfold reviewResultCount
  rw [List.filter_eq_self.mpr]
  intro x hx
  simp [hall x hx]

theorem reviewResultCount_le (results : List ResultRow) (rid : String) :
    reviewResultCount results rid ≤ results.length :=
  List.length_filter_le _ _

theorem handle_result_results (st : Store) (r : ResultRow) :
    (handle_result st r).results = store_result_in_database st.results r := by
  unfold handle_result
  split <;> rfl

theorem handle_result_frame (st : Store) (r : ResultRow) :
    (handle_result st r).review_id = st.review_id ∧
    (handle_result st r).files = st.files ∧
    (handle_result st r).columns = st.columns := by
  unfold handle_result
  split <;> exact ⟨rfl, rfl, rfl⟩

theorem step_job_not_ok {j : Job} (st : Store) (h : jobOK j = false) :
    step_job st j = st := by
  rw [step_job, process_single_cell_eq, h]
  rfl

theorem step_job_frame (st : Store) (j : Job) :
    (step_job st j).review_id = st.review_id ∧
    (step_job st j).files = st.files ∧
    (step_job st j).columns = st.columns := by
  rw [step_job]
  cases process_single_cell j with
  | none => exact ⟨rfl, rfl, rfl⟩
  | some r => exact handle_result_frame st r

/-- A successful fresh job appends its row, pushes `cell_update`, and flips
the review to `completed` exactly when the new count reaches
`total_files * total_columns`. -/
theorem step_job_ok {st : Store} {j : Job} (hok : jobOK j = true)
    (hfresh : ∀ x ∈ st.results, cellId x ≠ jobCell j)
    (hall : ∀ x ∈ st.results, x.review_id = st.review_id)
    (hrid : j.review_id = st.review_id) :
    step_job st j =
      if 0 < st.files.length * st.columns.length ∧
          st.results.length + 1 = st.files.length * st.columns.length then
        { st with results := st.results ++ [mkRow j]
                  events := st.events ++ ["cell_update", "review_completed"]
                  status := "completed" }
      else
        { st with results := st.results ++ [mkRow j]
                  events := st.events ++ ["cell_update"] } := by
  rw [step_job, process_single_cell_eq, hok]
  show handle_result st (mkRow j) = _
  unfold handle_result
  have hstore : store_result_in_database st.results (mkRow j) = st.results ++ [mkRow j] :=
    store_result_fresh (by simpa [mkRow_cellId] using hfresh)
  rw [hstore]
  have hcount : reviewResultCount (st.results ++ [mkRow j])
      (mkRow j).review_id = st.results.length + 1 := by
    rw [reviewResultCount_all]
    · simp
    · intro x hx
      rcases List.mem_append.mp hx with hx | hx
      · rw [hall x hx, mkRow_review_id, hrid]
      · simp only [List.mem_singleton] at hx
        subst hx
        rfl
  rw [hcount]

theorem step_job_inv {grid : List (String × String × String)} {st : Store} {j : Job}
    (hj : jobCell j ∈ grid) (hinv : StoreInv grid st) :
    StoreInv grid (step_job st j) := by
  rw [step_job, process_single_cell_eq]
  by_cases hok : jobOK j = true
  · rw [hok]
    show StoreInv grid (handle_result st (mkRow j))
    constructor
    · rw [handle_result_results]
      exact store_result_nodup _ hinv.1
    · rw [handle_result_results, store_result_ids]
      intro c hc
      by_cases hmem : st.results.any (fun x => sameCell x (mkRow j)) = true
      · rw [if_pos hmem] at hc
        exact hinv.2 c hc
      · rw [if_neg hmem] at hc
        rcases List.mem_append.mp hc with hc | hc
        · exact hinv.2 c hc
        · simp only [List.mem_singleton] at hc
          subst hc
          rwa [mkRow_cellId]
  · rw [Bool.not_eq_true] at hok
    rw [hok]
    exact hinv

theorem run_jobs_inv {grid : List (String × String × String)} (jobs : List Job)
    (st : Store) (hinv : StoreInv grid st) (hj : ∀ j ∈ jobs, jobCell j ∈ grid) :
    StoreInv grid (run_jobs st jobs) := by
  induction jobs generalizing st with
  | nil => exact hinv
  | cons j rest ih =>
    exact ih (step_job st j) (step_job_inv (hj j (by simp)) hinv)
      (fun j' hj' => hj j' (by simp [hj']))

theorem StoreInv.length_le {grid : List (String × String × String)} {st : Store}
    (hinv : StoreInv grid st) : st.results.length ≤ grid.length := by
  have h1 : st.results.length = (st.results.map cellId).length := by simp
  rw [h1, ← List.toFinset_card_of_nodup hinv.1]
  calc (st.results.map cellId).toFinset.card
      ≤ grid.toFinset.card := by
        apply Finset.card_le_card
        intro c hc
        rw [List.mem_toFinset] at hc ⊢
        exact hinv.2 c hc
    _ ≤ grid.length := grid.toFinset_card_le

/-- A run over fresh OK-distinct jobs appends one stored row per job that
yields a result, in queue order. -/
theorem run_jobs_results (st : Store) (jobs : List Job)
    (hfresh : ∀ j ∈ jobs, jobOK j = true → ∀ x ∈ st.results, cellId x ≠ jobCell j)
    (hnd : ((jobs.filter jobOK).map jobCell).Nodup) :
    (run_jobs st jobs).results = st.results ++ (jobs.filter jobOK).map mkRow := by
  induction jobs generalizing st with
  | nil => simp [run_jobs]
  | cons j rest ih =>
    by_cases hok : jobOK j = true
    · have hstep : (step_job st j).results = st.results ++ [mkRow j] := by
        rw [step_job, process_single_cell_eq, hok]
        show (handle_result st (mkRow j)).results = _
        rw [handle_result_results]
        exact store_result_fresh (by
          simpa [mkRow_cellId] using hfresh j (by simp) hok)
      have hfilter : (j :: rest).filter jobOK = j :: rest.filter jobOK := by
        simp [hok]
      rw [hfilter] at hnd ⊢
      rw [List.map_cons, List.nodup_cons] at hnd
      have ih' := ih (step_job st j) ?_ hnd.2
      · show (run_jobs (step_job st j) rest).results = _
        rw [ih', hstep]
        simp
      · intro j' hj' hok' x hx
        rw [hstep] at hx
        rcases List.mem_append.mp hx with hx | hx
        · exact hfresh j' (by simp [hj']) hok' x hx
        · simp only [List.mem_singleton] at hx
          subst hx
          rw [mkRow_cellId]
          intro hcontra
          exact hnd.1 (hcontra ▸ List.mem_map.mpr
            ⟨j', List.mem_filter.mpr ⟨hj', hok'⟩, rfl⟩)
    · rw [Bool.not_eq_true] at hok
      have hstep := step_job_not_ok st hok
      have hfilter : (j :: rest).filter jobOK = rest.filter jobOK := by
        simp [hok]
      rw [hfilter] at hnd ⊢
      show (run_jobs (step_job st j) rest).results = _
      rw [hstep]
      exact ih st (fun j' hj' => hfresh j' (by simp [hj'])) hnd

/-- A run that cannot reach the expected total leaves status and events
alone apart from one `cell_update` per stored result: the completion branch
never fires. -/
theorem run_jobs_incomplete (st : Store) (jobs : List Job)
    (hfresh : ∀ j ∈ jobs, jobOK j = true → ∀ x ∈ st.results, cellId x ≠ jobCell j)
    (hnd : ((jobs.filter jobOK).map jobCell).Nodup)
    (hlt : st.results.length + (jobs.filter jobOK).length <
      st.files.length * st.columns.length) :
    (run_jobs st jobs).results = st.results ++ (jobs.filter jobOK).map mkRow ∧
    (run_jobs st jobs).status = st.status ∧
    (run_jobs st jobs).events =
      st.events ++ List.replicate (jobs.filter jobOK).length "cell_update" := by
  induction jobs generalizing st with
  | nil => exact ⟨by simp [run_jobs], rfl, by simp [run_jobs]⟩
  | cons j rest ih =>
    by_cases hok : jobOK j = true
    · have hfresh_j := hfresh j (by simp) hok
      have hstore : store_result_in_database st.results (mkRow j) =
          st.results ++ [mkRow j] :=
        store_result_fresh (by simpa [mkRow_cellId] using hfresh_j)
      have hfilter : (j :: rest).filter jobOK = j :: rest.filter jobOK := by
        simp [hok]
      rw [hfilter] at hnd hlt ⊢
      rw [List.map_cons, List.nodup_cons] at hnd
      have hstep : step_job st j =
          { st with results := st.results ++ [mkRow j]
                    events := st.events ++ ["cell_update"] } := by
        rw [step_job, process_single_cell_eq, hok]
        show handle_result st (mkRow j) = _
        unfold handle_result
        rw [hstore, if_neg]
        intro hcontra
        have hle := reviewResultCount_le (st.results ++ [mkRow j]) (mkRow j).review_id
        rcases hcontra with ⟨-, hceq⟩
        rw [hceq] at hle
        simp only [List.length_append, List.length_cons, List.length_nil] at hle hlt
        omega
      have ih' := ih (step_job st j) ?_ ?_ ?_
      · show _ ∧ _ ∧ _
        rw [show run_jobs st (j :: rest) = run_jobs (step_job st j) rest from rfl]
        refine ⟨?_, ?_, ?_⟩
        · rw [ih'.1, hstep]
          simp
        · rw [ih'.2.1, hstep]
        · rw [ih'.2.2, hstep]
          simp [List.replicate_succ]
      · intro j' hj' hok' x hx
        rw [hstep] at hx
        simp only at hx
        rcases List.mem_append.mp hx with hx | hx
        · exact hfresh j' (by simp [hj']) hok' x hx
        · simp only [List.mem_singleton] at hx
          subst hx
          rw [mkRow_cellId]
          intro hcontra
          exact hnd.1 (hcontra ▸ List.mem_map.mpr
            ⟨j', List.mem_filter.mpr ⟨hj', hok'⟩, rfl⟩)
      · exact hnd.2
      · rw [hstep]
        simp only [List.length_append, List.length_cons, List.length_nil]
        simp only [List.length_cons] at hlt
        omega
    · rw [Bool.not_eq_true] at hok
      have hstep := step_job_not_ok st hok
      have hfilter : (j :: rest).filter jobOK = rest.filter jobOK := by
        simp [hok]
      rw [hfilter] at hnd hlt ⊢
      have hrun : run_jobs st (j :: rest) = run_jobs st rest := by
        show run_jobs (step_job st j) rest = run_jobs st rest
        rw [hstep]
      rw [hrun]
      exact ih st (fun j' hj' => hfresh j' (by simp [hj'])) hnd hlt

/-- A run of fresh, successful, pairwise-distinct jobs that exactly tops up
the expected total flips the status to `completed`, pushes exactly one
terminal `review_completed` message, and fills the table. -/
theorem run_jobs_completes (st : Store) (jobs : List Job)
    (hok : ∀ j ∈ jobs, jobOK j = true)
    (hfresh : ∀ j ∈ jobs, ∀ x ∈ st.results, cellId x ≠ jobCell j)
    (hnd : (jobs.map jobCell).Nodup)
    (hall : ∀ x ∈ st.results, x.review_id = st.review_id)
    (hrid : ∀ j ∈ jobs, j.review_id = st.review_id)
    (hne : jobs ≠ [])
    (hsum : st.results.length + jobs.length = st.files.length * st.columns.length) :
    (run_jobs st jobs).status = "completed" ∧
    (run_jobs st jobs).events.count "review_completed" =
      st.events.count "review_completed" + 1 ∧
    (run_jobs st jobs).results.length = st.files.length * st.columns.length := by
  induction jobs generalizing st with
  | nil => exact absurd rfl hne
  | cons j rest ih =>
    have hok_j := hok j (by simp)
    have hfresh_j := hfresh j (by simp)
    have hrid_j := hrid j (by simp)
    have hstep := step_job_ok hok_j hfresh_j hall hrid_j
    cases rest with
    | nil =>
      have hcond : 0 < st.files.length * st.columns.length ∧
          st.results.length + 1 = st.files.length * st.columns.length := by
        simp only [List.length_cons, List.length_nil] at hsum
        omega
      rw [if_pos hcond] at hstep
      have hrun : run_jobs st [j] = step_job st j := rfl
      rw [hrun, hstep]
      refine ⟨rfl, ?_, ?_⟩
      · simp [List.count_append]
      · simp only [List.length_append, List.length_cons, List.length_nil]
        simp only [List.length_cons, List.length_nil] at hsum
        omega
    | cons j2 rest2 =>
      have hcond : ¬ (0 < st.files.length * st.columns.length ∧
          st.results.length + 1 = st.files.length * st.columns.length) := by
        simp only [List.length_cons] at hsum
        intro hcontra
        omega
      rw [if_neg hcond] at hstep
      have hrun : run_jobs st (j :: j2 :: rest2) = run_jobs (step_job st j) (j2 :: rest2) := rfl
      rw [hrun, hstep]
      rw [List.map_cons, List.nodup_cons] at hnd
      have ih' := ih
        { st with results := st.results ++ [mkRow j]
                  events := st.events ++ ["cell_update"] }
        (fun j' hj' => hok j' (by simp [hj']))
        ?_ hnd.2 ?_ ?_ (by simp) ?_
      · refine ⟨ih'.1, ?_, ?_⟩
        · rw [ih'.2.1]
          simp [List.count_append]
        · rw [ih'.2.2]
      · intro j' hj' x hx
        simp only at hx
        rcases List.mem_append.mp hx with hx | hx
        · exact hfresh j' (by simp [hj']) x hx
        · simp only [List.mem_singleton] at hx
          subst hx
          rw [mkRow_cellId]
          intro hcontra
          exact hnd.1 (hcontra ▸ List.mem_map.mpr ⟨j', hj', rfl⟩)
      · intro x hx
        simp only at hx
        rcases List.mem_append.mp hx with hx | hx
        · exact hall x hx
        · simp only [List.mem_singleton] at hx
          subst hx
          rw [mkRow_review_id]
          exact hrid_j
      · intro j' hj'
        exact hrid j' (by simp [hj'])
      · simp only [List.length_append, List.length_cons, List.length_nil]
        simp only [List.length_cons] at hsum
        omega

theorem create_review_items_length (rid : String) (files : List String)
    (cols : List Column) :
    (create_review_items rid files cols).length = files.length * cols.length := by
  induction files with
  | nil => simp [create_review_items]
  | cons x xs ih =>
    simp only [create_review_items, List.cons_bind, List.length_append,
      List.length_map, List.length_cons] at *
    rw [ih]
    ring

theorem gridCells_length (rid : String) (files : List String) (cols : List Column) :
    (gridCells rid files cols).length = files.length * cols.length := by
  rw [gridCells, List.length_map, create_review_items_length]

theorem gridCells_eq (rid : String) (files : List String) (cols : List Column) :
    gridCells rid files cols =
      files.bind (fun f => cols.map (fun c => (rid, f, c.id))) := by
  simp [gridCells, create_review_items, List.map_bind, List.map_map, itemCell,
    Function.comp_def]

theorem mem_gridCells {rid : String} {files : List String} {cols : List Column}
    {c : String × String × String} (hc : c ∈ gridCells rid files cols) :
    c.1 = rid ∧ c.2.1 ∈ files ∧ c.2.2 ∈ cols.map Column.id := by
  rw [gridCells_eq] at hc
  rcases List.mem_bind.mp hc with ⟨f, hf, hc⟩
  rcases List.mem_map.mp hc with ⟨col, hcol, hceq⟩
  subst hceq
  exact ⟨rfl, hf, List.mem_map.mpr ⟨col, hcol, rfl⟩⟩

/-- With distinct file ids and distinct column ids the review grid has no
duplicate cell. -/
theorem gridCells_nodup {rid : String} {files : List String} {cols : List Column}
    (hf : files.Nodup) (hc : (cols.map Column.id).Nodup) :
    (gridCells rid files cols).Nodup := by
  rw [gridCells_eq]
  induction files with
  | nil => simp
  | cons x xs ih =>
    rw [List.nodup_cons] at hf
    simp only [List.cons_bind]
    rw [List.nodup_append]
    refine ⟨?_, ih hf.2, ?_⟩
    · have : cols.map (fun c => (rid, x, c.id)) =
          (cols.map Column.id).map (fun i => (rid, x, i)) := by
        rw [List.map_map]
        rfl
      rw [this]
      exact hc.map (fun a b hab => by simpa using hab)
    · intro a ha hb
      rcases List.mem_map.mp ha with ⟨col, _, haeq⟩
      rcases List.mem_bind.mp hb with ⟨f, hfmem, hbm⟩
      rcases List.mem_map.mp hbm with ⟨col2, _, hbeq⟩
      have h1 : a.2.1 = x := by rw [← haeq]
      have h2 : a.2.1 = f := by rw [← hbeq]
      exact hf.1 (by rw [h1.symm.trans h2]; exact hfmem)

/-- C1: For every review, at every point in the run the number of stored
Results is at most `total_files * total_columns`; and in a run that
processes the queued grid exactly once with every cell succeeding, the
completion check flips the status to `completed` and emits the terminal
`review_completed` event exactly once. -/
theorem completion_check_exactly_once
    (rid : String) (files : List String) (cols : List Column) (jobs : List Job)
    (hfnd : files.Nodup) (hcnd : (cols.map Column.id).Nodup)
    (hfne : files ≠ []) (hcne : cols ≠ [])
    (hperm : (jobs.map jobCell).Perm (gridCells rid files cols))
    (hok : ∀ j ∈ jobs, jobOK j = true) :
    (∀ jobs' : List Job,
        (∀ j ∈ jobs', jobCell j ∈ gridCells rid files cols) →
        (run_jobs (init_store rid files cols) jobs').results.length ≤
          files.length * cols.length) ∧
    (run_jobs (init_store rid files cols) jobs).status = "completed" ∧
    (run_jobs (init_store rid files cols) jobs).events.count "review_completed" = 1 := by
  have hgridnd : (gridCells rid files cols).Nodup := gridCells_nodup hfnd hcnd
  have hlenjobs : jobs.length = files.length * cols.length := by
    have h1 := hperm.length_eq
    rw [List.length_map, gridCells_length] at h1
    exact h1
  have hpos : 0 < files.length * cols.length :=
    Nat.mul_pos (List.length_pos.mpr hfne) (List.length_pos.mpr hcne)
  refine ⟨?_, ?_⟩
  · intro jobs' hj
    have hinv : StoreInv (gridCells rid files cols)
        (run_jobs (init_store rid files cols) jobs') := by
      apply run_jobs_inv
      · exact ⟨List.nodup_nil, by simp [init_store]⟩
      · exact hj
    calc (run_jobs (init_store rid files cols) jobs').results.length
        ≤ (gridCells rid files cols).length := hinv.length_le
      _ = files.length * cols.length := gridCells_length rid files cols
  · have hmain := run_jobs_completes (init_store rid files cols) jobs
      hok
      (by intro j hj x hx; simp [init_store] at hx)
      (hperm.nodup_iff.mpr hgridnd)
      (by intro x hx; simp [init_store] at hx)
      (by
        intro j hj
        have : jobCell j ∈ gridCells rid files cols :=
          hperm.mem_iff.mp (List.mem_map.mpr ⟨j, hj, rfl⟩)
        exact (mem_gridCells this).1)
      (by
        intro hnil
        rw [hnil] at hlenjobs
        simp only [List.length_nil] at hlenjobs
        omega)
      (by simp [init_store, hlenjobs])
    refine ⟨hmain.1, ?_⟩
    rw [hmain.2.1]
    simp [init_store]

theorem completion_check_exactly_once_witness :
    ((["f1"] : List String).Nodup ∧
      (([sampleCol] : List Column).map Column.id).Nodup ∧
      (["f1"] : List String) ≠ [] ∧ ([sampleCol] : List Column) ≠ [] ∧
      ([sampleJob].map jobCell).Perm (gridCells "r1" ["f1"] [sampleCol]) ∧
      (∀ j ∈ [sampleJob], jobOK j = true)) ∧
    ((run_jobs (init_store "r1" ["f1"] [sampleCol]) [sampleJob]).status = "completed" ∧
      (run_jobs (init_store "r1" ["f1"] [sampleCol])
        [sampleJob]).events.count "review_completed" = 1) :=
  ⟨by decide,
    (completion_check_exactly_once "r1" ["f1"] [sampleCol] [sampleJob]
      (by decide) (by decide) (by decide) (by decide) (by decide) (by decide)).2⟩

/-- C2: Upserting a Result twice for the same (review, file, column)
identity keeps the at-most-one-row-per-identity invariant and leaves
exactly one row for that identity, holding the fields of the later
upsert. -/
theorem upsert_twice_single_row
    (tbl : List ResultRow) (r₁ r₂ : ResultRow)
    (hid : cellId r₁ = cellId r₂)
    (hinv : (tbl.map cellId).Nodup) :
    ((store_result_in_database tbl r₁).map cellId).Nodup ∧
    ((store_result_in_database (store_result_in_database tbl r₁) r₂).map cellId).Nodup ∧
    (store_result_in_database (store_result_in_database tbl r₁) r₂).filter
      (fun x => sameCell x r₂) = [r₂] ∧
    (store_result_in_database (store_result_in_database tbl r₁) r₂).filter
      (fun x => sameCell x r₁) = [r₂] := by
  have h1 : ((store_result_in_database tbl r₁).map cellId).Nodup :=
    store_result_nodup r₁ hinv
  have h2 := store_result_filter_self r₂ h1
  refine ⟨h1, store_result_nodup r₂ h1, h2, ?_⟩
  rw [← h2]
  apply List.filter_congr
  intro x _
  by_cases hx : cellId x = cellId r₂
  · rw [sameCell_iff.mpr hx, sameCell_iff.mpr (hid ▸ hx)]
  · have hb1 : sameCell x r₁ = false := by
      rw [Bool.eq_false_iff]
      intro hc
      exact hx ((sameCell_iff.mp hc).trans hid)
    have hb2 : sameCell x r₂ = false := by
      rw [Bool.eq_false_iff]
      intro hc
      exact hx (sameCell_iff.mp hc)
    rw [hb1, hb2]

theorem upsert_twice_single_row_witness :
    (cellId ⟨"r1", "f1", "c1", some "old", 0, "s1"⟩ =
        cellId ⟨"r1", "f1", "c1", some "new", 1, "s2"⟩ ∧
      (([] : List ResultRow).map cellId).Nodup) ∧
    (((store_result_in_database [] ⟨"r1", "f1", "c1", some "old", 0, "s1"⟩).map cellId).Nodup ∧
      ((store_result_in_database
          (store_result_in_database [] ⟨"r1", "f1", "c1", some "old", 0, "s1"⟩)
          ⟨"r1", "f1", "c1", some "new", 1, "s2"⟩).map cellId).Nodup ∧
      (store_result_in_database
          (store_result_in_database [] ⟨"r1", "f1", "c1", some "old", 0, "s1"⟩)
          ⟨"r1", "f1", "c1", some "new", 1, "s2"⟩).filter
        (fun x => sameCell x ⟨"r1", "f1", "c1", some "new", 1, "s2"⟩) =
        [⟨"r1", "f1", "c1", some "new", 1, "s2"⟩] ∧
      (store_result_in_database
          (store_result_in_database [] ⟨"r1", "f1", "c1", some "old", 0, "s1"⟩)
          ⟨"r1", "f1", "c1", some "new", 1, "s2"⟩).filter
        (fun x => sameCell x ⟨"r1", "f1", "c1", some "old", 0, "s1"⟩) =
        [⟨"r1", "f1", "c1", some "new", 1, "s2"⟩]) :=
  ⟨by decide,
    upsert_twice_single_row [] ⟨"r1", "f1", "c1", some "old", 0, "s1"⟩
      ⟨"r1", "f1", "c1", some "new", 1, "s2"⟩ (by decide) (by decide)⟩

/-- C3: A job whose Engine call fails (raises or returns unparseable
output) still stores a Result, and that Result is the degraded
`(None, 0.0, "Analysis failed")`; every sibling cell of the run is stored
as well and the review still reaches `completed`. -/
theorem engine_failure_yields_degraded_result
    (rid : String) (files : List String) (cols : List Column) (jobs : List Job)
    (hfnd : files.Nodup) (hcnd : (cols.map Column.id).Nodup)
    (hfne : files ≠ []) (hcne : cols ≠ [])
    (hperm : (jobs.map jobCell).Perm (gridCells rid files cols))
    (hok : ∀ j ∈ jobs, jobOK j = true)
    (j : Job) (hj : j ∈ jobs) (hfail : engineFailed j.outcome = true) :
    mkRow j ∈ (run_jobs (init_store rid files cols) jobs).results ∧
    (mkRow j).extracted_value = none ∧
    (mkRow j).confidence_score = 0 ∧
    (mkRow j).source_reference = "Analysis failed" ∧
    (∀ j' ∈ jobs, mkRow j' ∈ (run_jobs (init_store rid files cols) jobs).results) ∧
    (run_jobs (init_store rid files cols) jobs).status = "completed" := by
  have hgridnd : (gridCells rid files cols).Nodup := gridCells_nodup hfnd hcnd
  have hnd : (jobs.map jobCell).Nodup := hperm.nodup_iff.mpr hgridnd
  have hfilter : jobs.filter jobOK = jobs := List.filter_eq_self.mpr hok
  have hres : (run_jobs (init_store rid files cols) jobs).results =
      jobs.map mkRow := by
    have h := run_jobs_results (init_store rid files cols) jobs
      (by intro j' hj' _ x hx; simp [init_store] at hx)
      (by rw [hfilter]; exact hnd)
    rw [hfilter] at h
    simpa [init_store] using h
  have hdeg : (mkRow j).extracted_value = none ∧
      (mkRow j).confidence_score = 0 ∧
      (mkRow j).source_reference = "Analysis failed" := by
    cases houtcome : j.outcome with
    | parsed v c s => rw [houtcome] at hfail; simp [engineFailed] at hfail
    | parseFailure raw => exact ⟨by simp [mkRow, houtcome, gemini_extract],
        by simp [mkRow, houtcome, gemini_extract],
        by simp [mkRow, houtcome, gemini_extract]⟩
    | raised msg => exact ⟨by simp [mkRow, houtcome, gemini_extract],
        by simp [mkRow, houtcome, gemini_extract],
        by simp [mkRow, houtcome, gemini_extract]⟩
  have hlenjobs : jobs.length = files.length * cols.length := by
    have h1 := hperm.length_eq
    rw [List.length_map, gridCells_length] at h1
    exact h1
  have hpos : 0 < files.length * cols.length :=
    Nat.mul_pos (List.length_pos.mpr hfne) (List.length_pos.mpr hcne)
  have hstatus := (run_jobs_completes (init_store rid files cols) jobs
    hok
    (by intro j' hj' x hx; simp [init_store] at hx)
    hnd
    (by intro x hx; simp [init_store] at hx)
    (by
      intro j' hj'
      have : jobCell j' ∈ gridCells rid files cols :=
        hperm.mem_iff.mp (List.mem_map.mpr ⟨j', hj', rfl⟩)
      exact (mem_gridCells this).1)
    (by
      intro hnil
      rw [hnil] at hlenjobs
      simp only [List.length_nil] at hlenjobs
      omega)
    (by simp [init_store, hlenjobs])).1
  exact ⟨hres ▸ List.mem_map.mpr ⟨j, hj, rfl⟩, hdeg.1, hdeg.2.1, hdeg.2.2,
    fun j' hj' => hres ▸ List.mem_map.mpr ⟨j', hj', rfl⟩, hstatus⟩

theorem engine_failure_yields_degraded_result_witness :
    ((["f1", "f2"] : List String).Nodup ∧
      (([sampleCol] : List Column).map Column.id).Nodup ∧
      (["f1", "f2"] : List String) ≠ [] ∧ ([sampleCol] : List Column) ≠ [] ∧
      ([sampleJob, failJob].map jobCell).Perm (gridCells "r1" ["f1", "f2"] [sampleCol]) ∧
      (∀ j ∈ [sampleJob, failJob], jobOK j = true) ∧
      failJob ∈ [sampleJob, failJob] ∧ engineFailed failJob.outcome = true) ∧
    (mkRow failJob ∈
        (run_jobs (init_store "r1" ["f1", "f2"] [sampleCol]) [sampleJob, failJob]).results ∧
      (mkRow failJob).extracted_value = none ∧
      (mkRow failJob).confidence_score = 0 ∧
      (mkRow failJob).source_reference = "Analysis failed" ∧
      (∀ j' ∈ [sampleJob, failJob], mkRow j' ∈
        (run_jobs (init_store "r1" ["f1", "f2"] [sampleCol]) [sampleJob, failJob]).results) ∧
      (run_jobs (init_store "r1" ["f1", "f2"] [sampleCol]) [sampleJob, failJob]).status =
        "completed") :=
  ⟨by decide,
    engine_failure_yields_degraded_result "r1" ["f1", "f2"] [sampleCol]
      [sampleJob, failJob] (by decide) (by decide) (by decide) (by decide)
      (by decide) (by decide) failJob (by decide) (by decide)⟩

/-- C4 counterexample: a 1-file × 1-column review whose only job dies with
an unhandled error.  Contrary to the claim, the errored job contributes
nothing to the stored-result count (0 of 1 expected), no `cell-error` — or
any other — event is pushed, and the review stays `processing` instead of
reaching `completed`. -/
theorem errored_job_drops_silently_cex :
    (run_jobs (init_store "r1" ["f1"] [sampleCol]) [crashJob]).results = [] ∧
    (run_jobs (init_store "r1" ["f1"] [sampleCol]) [crashJob]).status = "processing" ∧
    (run_jobs (init_store "r1" ["f1"] [sampleCol]) [crashJob]).events =
      ["processing_started"] := by
  decide

/-- C4 as amended: a job that ends in an unhandled error is silently
dropped by the pipeline (`_process_single_cell` returns `None` and
`processing_worker` filters it out): it stores no Result and pushes no
event of any kind — the code has no `cell-error` event — so it does NOT
count toward the stored-result total, and a run of the review grid that
contains such a job leaves the count short of
`total_files * total_columns`, never fires the completion check, and
leaves the review in `processing`. -/
theorem errored_job_blocks_completion
    (rid : String) (files : List String) (cols : List Column) (jobs : List Job)
    (hfnd : files.Nodup) (hcnd : (cols.map Column.id).Nodup)
    (hperm : (jobs.map jobCell).Perm (gridCells rid files cols))
    (j0 : Job) (hj0 : j0 ∈ jobs) (hcrash : j0.crash = true) :
    process_single_cell j0 = none ∧
    (run_jobs (init_store rid files cols) jobs).results.length <
      files.length * cols.length ∧
    (run_jobs (init_store rid files cols) jobs).status = "processing" ∧
    (run_jobs (init_store rid files cols) jobs).events.count "review_completed" = 0 ∧
    (run_jobs (init_store rid files cols) jobs).events.count "cell-error" = 0 := by
  have hgridnd : (gridCells rid files cols).Nodup := gridCells_nodup hfnd hcnd
  have hnd : (jobs.map jobCell).Nodup := hperm.nodup_iff.mpr hgridnd
  have hndf : ((jobs.filter jobOK).map jobCell).Nodup :=
    hnd.sublist (List.Sublist.map jobCell (List.filter_sublist jobs))
  have hlenjobs : jobs.length = files.length * cols.length := by
    have h1 := hperm.length_eq
    rw [List.length_map, gridCells_length] at h1
    exact h1
  have hj0ok : jobOK j0 = false := by
    simp [jobOK, hcrash]
  have hflt : (jobs.filter jobOK).length < jobs.length := by
    apply List.length_filter_lt_length_iff_exists.mpr
    exact ⟨j0, hj0, by simp [hj0ok]⟩
  have hmain := run_jobs_incomplete (init_store rid files cols) jobs
    (by intro j' hj' _ x hx; simp [init_store] at hx)
    hndf
    (by
      simp only [init_store, List.length_nil]
      omega)
  refine ⟨by simp [process_single_cell, hcrash], ?_, ?_, ?_, ?_⟩
  · rw [hmain.1]
    simp only [init_store, List.length_append, List.length_map, List.length_nil]
    omega
  · rw [hmain.2.1]
    rfl
  · rw [hmain.2.2]
    simp [init_store, List.count_append, List.count_replicate]
  · rw [hmain.2.2]
    simp [init_store, List.count_append, List.count_replicate]

theorem errored_job_blocks_completion_witness :
    ((["f1", "f2"] : List String).Nodup ∧
      (([sampleCol] : List Column).map Column.id).Nodup ∧
      ([sampleJob, crashJob2].map jobCell).Perm (gridCells "r1" ["f1", "f2"] [sampleCol]) ∧
      crashJob2 ∈ [sampleJob, crashJob2] ∧ crashJob2.crash = true) ∧
    (process_single_cell crashJob2 = none ∧
      (run_jobs (init_store "r1" ["f1", "f2"] [sampleCol]) [sampleJob, crashJob2]).results.length <
        2 * 1 ∧
      (run_jobs (init_store "r1" ["f1", "f2"] [sampleCol]) [sampleJob, crashJob2]).status =
        "processing" ∧
      (run_jobs (init_store "r1" ["f1", "f2"] [sampleCol])
        [sampleJob, crashJob2]).events.count "review_completed" = 0 ∧
      (run_jobs (init_store "r1" ["f1", "f2"] [sampleCol])
        [sampleJob, crashJob2]).events.count "cell-error" = 0) :=
  ⟨by decide,
    errored_job_blocks_completion "r1" ["f1", "f2"] [sampleCol]
      [sampleJob, crashJob2] (by decide) (by decide) (by decide)
      crashJob2 (by decide) (by decide)⟩

/-- C10: a job whose document content is empty (missing or unfetchable) is
returned as `None` by the cell processor: no Result is upserted, no
per-cell event is pushed, the completion check never runs for it, and a
grid run containing such a job leaves the stored-result count short of
`total_files * total_columns`, the event stream with one `cell_update` per
processed cell only, and the review stuck in `processing`. -/
theorem empty_content_blocks_completion
    (rid : String) (files : List String) (cols : List Column) (jobs : List Job)
    (hfnd : files.Nodup) (hcnd : (cols.map Column.id).Nodup)
    (hperm : (jobs.map jobCell).Perm (gridCells rid files cols))
    (hnocrash : ∀ j ∈ jobs, j.crash = false)
    (j0 : Job) (hj0 : j0 ∈ jobs) (hempty : j0.content = "") :
    process_single_cell j0 = none ∧
    (run_jobs (init_store rid files cols) jobs).results.length <
      files.length * cols.length ∧
    (run_jobs (init_store rid files cols) jobs).status = "processing" ∧
    (run_jobs (init_store rid files cols) jobs).events =
      "processing_started" ::
        List.replicate (jobs.filter jobOK).length "cell_update" ∧
    (jobs.filter jobOK).length < jobs.length := by
  have hgridnd : (gridCells rid files cols).Nodup := gridCells_nodup hfnd hcnd
  have hnd : (jobs.map jobCell).Nodup := hperm.nodup_iff.mpr hgridnd
  have hndf : ((jobs.filter jobOK).map jobCell).Nodup :=
    hnd.sublist (List.Sublist.map jobCell (List.filter_sublist jobs))
  have hlenjobs : jobs.length = files.length * cols.length := by
    have h1 := hperm.length_eq
    rw [List.length_map, gridCells_length] at h1
    exact h1
  have hj0ok : jobOK j0 = false := by
    simp [jobOK, hempty]
  have hflt : (jobs.filter jobOK).length < jobs.length := by
    apply List.length_filter_lt_length_iff_exists.mpr
    exact ⟨j0, hj0, by simp [hj0ok]⟩
  have hmain := run_jobs_incomplete (init_store rid files cols) jobs
    (by intro j' hj' _ x hx; simp [init_store] at hx)
    hndf
    (by
      simp only [init_store, List.length_nil]
      omega)
  refine ⟨by simp [process_single_cell, hempty, hnocrash j0 hj0], ?_, ?_, ?_, hflt⟩
  · rw [hmain.1]
    simp only [init_store, List.length_append, List.length_map, List.length_nil]
    omega
  · rw [hmain.2.1]
    rfl
  · rw [hmain.2.2]
    simp [init_store]

theorem empty_content_blocks_completion_witness :
    ((["f1", "f2"] : List String).Nodup ∧
      (([sampleCol] : List Column).map Column.id).Nodup ∧
      ([sampleJob, emptyContentJob].map jobCell).Perm
        (gridCells "r1" ["f1", "f2"] [sampleCol]) ∧
      (∀ j ∈ [sampleJob, emptyContentJob], j.crash = false) ∧
      emptyContentJob ∈ [sampleJob, emptyContentJob] ∧
      emptyContentJob.content = "") ∧
    (process_single_cell emptyContentJob = none ∧
      (run_jobs (init_store "r1" ["f1", "f2"] [sampleCol])
        [sampleJob, emptyContentJob]).results.length < 2 * 1 ∧
      (run_jobs (init_store "r1" ["f1", "f2"] [sampleCol])
        [sampleJob, emptyContentJob]).status = "processing" ∧
      (run_jobs (init_store "r1" ["f1", "f2"] [sampleCol])
        [sampleJob, emptyContentJob]).events =
        "processing_started" ::
          List.replicate ([sampleJob, emptyContentJob].filter jobOK).length "cell_update" ∧
      ([sampleJob, emptyContentJob].filter jobOK).length <
        ([sampleJob, emptyContentJob] : List Job).length) :=
  ⟨by decide,
    empty_content_blocks_completion "r1" ["f1", "f2"] [sampleCol]
      [sampleJob, emptyContentJob] (by decide) (by decide) (by decide) (by decide)
      emptyContentJob (by decide) (by decide)⟩

/-- C5 counterexample: a review for which N = 1 progress event has already
fired (`processing_started`).  A client that connects now receives only the
`structure` frame — no replay of the fired event and no frame carrying a
`replayed` marker — refuting the claim that it receives all N buffered
events marked `replayed=true` before live events. -/
theorem no_replay_marker_cex :
    (init_store "r1" ["f1"] [sampleCol]).events.length = 1 ∧
    client_received (init_store "r1" ["f1"] [sampleCol]) [] =
      [⟨"structure", false, []⟩] := by
  decide

/-- C5 as amended: the websocket endpoint does not buffer or replay fired
events.  A connecting client instead receives a snapshot: the `structure`
frame and then — when the review has stored results — one `cached_results`
frame holding every stored Result (here: one row per grid cell of the
finished run), all before any live frame and none carrying a `replayed`
marker. -/
theorem connect_snapshot_before_live
    (rid : String) (files : List String) (cols : List Column) (jobs : List Job)
    (live : List WireFrame)
    (hfnd : files.Nodup) (hcnd : (cols.map Column.id).Nodup)
    (hfne : files ≠ []) (hcne : cols ≠ [])
    (hperm : (jobs.map jobCell).Perm (gridCells rid files cols))
    (hok : ∀ j ∈ jobs, jobOK j = true) :
    client_received (run_jobs (init_store rid files cols) jobs) live =
      connect_initial_frames (run_jobs (init_store rid files cols) jobs) ++ live ∧
    connect_initial_frames (run_jobs (init_store rid files cols) jobs) =
      [⟨"structure", false, []⟩, ⟨"cached_results", false, jobs.map mkRow⟩] ∧
    (∀ f ∈ connect_initial_frames (run_jobs (init_store rid files cols) jobs),
      f.replayed = false) ∧
    (jobs.map mkRow).length = files.length * cols.length := by
  have hgridnd : (gridCells rid files cols).Nodup := gridCells_nodup hfnd hcnd
  have hnd : (jobs.map jobCell).Nodup := hperm.nodup_iff.mpr hgridnd
  have hfilter : jobs.filter jobOK = jobs := List.filter_eq_self.mpr hok
  have hres : (run_jobs (init_store rid files cols) jobs).results =
      jobs.map mkRow := by
    have h := run_jobs_results (init_store rid files cols) jobs
      (by intro j' hj' _ x hx; simp [init_store] at hx)
      (by rw [hfilter]; exact hnd)
    rw [hfilter] at h
    simpa [init_store] using h
  have hlenjobs : jobs.length = files.length * cols.length := by
    have h1 := hperm.length_eq
    rw [List.length_map, gridCells_length] at h1
    exact h1
  have hpos : 0 < files.length * cols.length :=
    Nat.mul_pos (List.length_pos.mpr hfne) (List.length_pos.mpr hcne)
  have hrid : ∀ j ∈ jobs, j.review_id = rid := by
    intro j' hj'
    have : jobCell j' ∈ gridCells rid files cols :=
      hperm.mem_iff.mp (List.mem_map.mpr ⟨j', hj', rfl⟩)
    exact (mem_gridCells this).1
  have hframe : ∀ (st : Store) (l : List Job),
      (run_jobs st l).review_id = st.review_id := by
    intro st l
    induction l generalizing st with
    | nil => rfl
    | cons j rest ih =>
      show (run_jobs (step_job st j) rest).review_id = st.review_id
      rw [ih (step_job st j), (step_job_frame st j).1]
  have hridstore : (run_jobs (init_store rid files cols) jobs).review_id = rid := by
    rw [hframe]
    rfl
  have hcached : get_cached_results
      (run_jobs (init_store rid files cols) jobs).results
      (run_jobs (init_store rid files cols) jobs).review_id = jobs.map mkRow := by
    rw [hres, hridstore]
    unfold get_cached_results
    apply List.filter_eq_self.mpr
    intro r hr
    rcases List.mem_map.mp hr with ⟨j', hj', hje⟩
    subst hje
    rw [mkRow_review_id]
    simp [hrid j' hj']
  have hne : jobs.map mkRow ≠ [] := by
    intro hnil
    have : jobs = [] := by
      cases jobs with
      | nil => rfl
      | cons a b => simp at hnil
    rw [this] at hlenjobs
    simp only [List.length_nil] at hlenjobs
    omega
  refine ⟨rfl, ?_, ?_, by rw [List.length_map, hlenjobs]⟩
  · unfold connect_initial_frames
    rw [hcached, if_neg hne]
  · intro f hf
    unfold connect_initial_frames at hf
    rw [hcached, if_neg hne] at hf
    simp only [List.mem_cons, List.not_mem_nil, or_false] at hf
    rcases hf with rfl | rfl <;> rfl

theorem connect_snapshot_before_live_witness :
    ((["f1"] : List String).Nodup ∧
      (([sampleCol] : List Column).map Column.id).Nodup ∧
      (["f1"] : List String) ≠ [] ∧ ([sampleCol] : List Column) ≠ [] ∧
      ([sampleJob].map jobCell).Perm (gridCells "r1" ["f1"] [sampleCol]) ∧
      (∀ j ∈ [sampleJob], jobOK j = true)) ∧
    (client_received (run_jobs (init_store "r1" ["f1"] [sampleCol]) [sampleJob]) [] =
        connect_initial_frames (run_jobs (init_store "r1" ["f1"] [sampleCol]) [sampleJob]) ++ [] ∧
      connect_initial_frames (run_jobs (init_store "r1" ["f1"] [sampleCol]) [sampleJob]) =
        [⟨"structure", false, []⟩,
          ⟨"cached_results", false, [sampleJob].map mkRow⟩] ∧
      (∀ f ∈ connect_initial_frames
          (run_jobs (init_store "r1" ["f1"] [sampleCol]) [sampleJob]),
        f.replayed = false) ∧
      ([sampleJob].map mkRow).length = 1 * 1) :=
  ⟨by decide,
    connect_snapshot_before_live "r1" ["f1"] [sampleCol] [sampleJob] []
      (by decide) (by decide) (by decide) (by decide) (by decide) (by decide)⟩

theorem length_filter_split {α : Type} (l : List α) (p : α → Bool) :
    (l.filter p).length + (l.filter (fun x => !(p x))).length = l.length := by
  induction l with
  | nil => simp
  | cons x xs ih =>
    by_cases hx : p x = true
    · rw [List.filter_cons_of_pos hx, List.filter_cons_of_neg (by simp [hx])]
      simp only [List.length_cons]
      omega
    · rw [Bool.not_eq_true] at hx
      rw [List.filter_cons_of_neg (by simp [hx]),
        List.filter_cons_of_pos (by simp [hx])]
      simp only [List.length_cons]
      omega

/-- C6: editing the prompt of an existing column on a fully-completed
review deletes exactly `total_files` stored Results — those of that column
and no others — sets the status back to `processing`, enqueues exactly one
new job per file of the review (all for the edited column), and running
those jobs brings the review back to `completed` with a full table. -/
theorem prompt_edit_resets_column
    (st : Store) (cid newPrompt : String) (jobs : List Job)
    (hcol : ∃ c ∈ st.columns, c.id = cid)
    (hfnd : st.files.Nodup)
    (hfne : st.files ≠ [])
    (hall : ∀ r ∈ st.results, r.review_id = st.review_id)
    (hlen : st.results.length = st.files.length * st.columns.length)
    (hcomplete : (st.results.filter
        (fun r => r.review_id == st.review_id && r.column_id == cid)).length =
      st.files.length)
    (hreal : jobs.map toQueueItem =
      analyze_new_column_items (update_column_prompt st cid newPrompt) cid)
    (hok : ∀ j ∈ jobs, jobOK j = true) :
    (update_column_prompt st cid newPrompt).results =
      st.results.filter
        (fun r => !(r.review_id == st.review_id && r.column_id == cid)) ∧
    (update_column_prompt st cid newPrompt).results.length + st.files.length =
      st.results.length ∧
    (update_column_prompt st cid newPrompt).status = "processing" ∧
    jobs.length = st.files.length ∧
    (jobs.map toQueueItem).map QueueItem.file_id = st.files ∧
    (∀ q ∈ jobs.map toQueueItem, q.column_id = cid) ∧
    (run_jobs (update_column_prompt st cid newPrompt) jobs).status = "completed" ∧
    (run_jobs (update_column_prompt st cid newPrompt) jobs).results.length =
      st.files.length * st.columns.length := by
  have hany : st.columns.any (fun c => c.id == cid) = true := by
    rcases hcol with ⟨c, hc, hcid⟩
    exact List.any_eq_true.mpr ⟨c, hc, by simp [hcid]⟩
  have hupd : update_column_prompt st cid newPrompt =
      { st with
        columns := st.columns.map (fun c =>
          if c.id == cid then { c with prompt := newPrompt } else c)
        results := st.results.filter
          (fun r => !(r.review_id == st.review_id && r.column_id == cid))
        status := "processing"
        events := st.events ++ ["column_updated"] } := by
    unfold update_column_prompt
    rw [if_pos hany]
  obtain ⟨c', hfindeq, hc'id⟩ : ∃ c', (st.columns.map (fun c =>
      if c.id == cid then { c with prompt := newPrompt } else c)).find?
        (fun c => c.id == cid) = some c' ∧ c'.id = cid := by
    rcases hcol with ⟨c, hc, hcid⟩
    have hex : ((st.columns.map (fun c =>
        if c.id == cid then { c with prompt := newPrompt } else c)).find?
          (fun c => c.id == cid)).isSome := by
      rw [List.find?_isSome]
      refine ⟨if c.id == cid then { c with prompt := newPrompt } else c,
        List.mem_map.mpr ⟨c, hc, rfl⟩, ?_⟩
      simp [hcid]
    obtain ⟨c', hc'⟩ := Option.isSome_iff_exists.mp hex
    refine ⟨c', hc', ?_⟩
    have := List.find?_some hc'
    simpa using this
  have hitems : analyze_new_column_items (update_column_prompt st cid newPrompt) cid =
      st.files.map (fun f =>
        (⟨st.review_id, f, c'.id, c'.prompt, c'.column_name, c'.data_type⟩ :
          QueueItem)) := by
    rw [hupd]
    unfold analyze_new_column_items
    simp only [hfindeq]
  have hlenjobs : jobs.length = st.files.length := by
    have h := congrArg List.length hreal
    rw [List.length_map, hitems, List.length_map] at h
    exact h
  have hjcells : jobs.map jobCell =
      st.files.map (fun f => (st.review_id, f, cid)) := by
    have h1 : jobs.map jobCell = (jobs.map toQueueItem).map itemCell := by
      rw [List.map_map]
      rfl
    rw [h1, hreal, hitems, List.map_map]
    apply List.map_congr_left
    intro f _
    simp [itemCell, hc'id]
  have hjfields : ∀ j ∈ jobs, j.review_id = st.review_id ∧ j.column_id = cid := by
    intro j hj
    have hmem : jobCell j ∈ st.files.map (fun f => (st.review_id, f, cid)) := by
      rw [← hjcells]
      exact List.mem_map.mpr ⟨j, hj, rfl⟩
    rcases List.mem_map.mp hmem with ⟨f, _, heq⟩
    constructor
    · have := congrArg Prod.fst heq
      simpa [jobCell] using this.symm
    · have := congrArg (fun p => p.2.2) heq
      simpa [jobCell] using this.symm
  have hsplit := length_filter_split st.results
    (fun r => r.review_id == st.review_id && r.column_id == cid)
  have hpos : 0 < st.files.length := List.length_pos.mpr hfne
  have hcomp := run_jobs_completes (update_column_prompt st cid newPrompt) jobs
    hok
    (by
      intro j hj x hx
      rw [hupd] at hx
      intro hcontra
      have hx1 : x.review_id = j.review_id := congrArg Prod.fst hcontra
      have hx2 : x.column_id = j.column_id := congrArg (fun p => p.2.2) hcontra
      have h2 := (List.mem_filter.mp hx).2
      rw [hx1, (hjfields j hj).1, hx2, (hjfields j hj).2] at h2
      simp at h2)
    (by
      rw [hjcells]
      exact hfnd.map (fun a b hab => by simpa using hab))
    (by
      intro x hx
      rw [hupd] at hx
      rw [hupd]
      exact hall x (List.mem_filter.mp hx).1)
    (by
      intro j hj
      rw [hupd]
      exact (hjfields j hj).1)
    (by
      intro hnil
      rw [hnil] at hlenjobs
      simp only [List.length_nil] at hlenjobs
      omega)
    (by
      rw [hupd]
      dsimp only
      rw [List.length_map, hlenjobs]
      omega)
  refine ⟨?_, ?_, ?_, hlenjobs, ?_, ?_, hcomp.1, ?_⟩
  · rw [hupd]
  · rw [hupd]
    dsimp only
    omega
  · rw [hupd]
  · rw [hreal, hitems, List.map_map]
    simp [Function.comp_def]
  · intro q hq
    rw [hreal, hitems] at hq
    rcases List.mem_map.mp hq with ⟨f, _, hfe⟩
    rw [← hfe]
    exact hc'id
  · rw [hcomp.2.2, hupd]
    dsimp only
    rw [List.length_map]

theorem prompt_edit_resets_column_witness :
    ((∃ c ∈ doneStore.columns, c.id = "c1") ∧
      doneStore.files.Nodup ∧ doneStore.files ≠ [] ∧
      (∀ r ∈ doneStore.results, r.review_id = doneStore.review_id) ∧
      doneStore.results.length = doneStore.files.length * doneStore.columns.length ∧
      (doneStore.results.filter (fun r =>
        r.review_id == doneStore.review_id && r.column_id == "c1")).length =
        doneStore.files.length ∧
      [editJob].map toQueueItem = analyze_new_column_items
        (update_column_prompt doneStore "c1" "Find the company") "c1" ∧
      (∀ j ∈ [editJob], jobOK j = true)) ∧
    ((update_column_prompt doneStore "c1" "Find the company").results =
        doneStore.results.filter (fun r =>
          !(r.review_id == doneStore.review_id && r.column_id == "c1")) ∧
      (update_column_prompt doneStore "c1" "Find the company").results.length +
        doneStore.files.length = doneStore.results.length ∧
      (update_column_prompt doneStore "c1" "Find the company").status = "processing" ∧
      ([editJob] : List Job).length = doneStore.files.length ∧
      ([editJob].map toQueueItem).map QueueItem.file_id = doneStore.files ∧
      (∀ q ∈ [editJob].map toQueueItem, q.column_id = "c1") ∧
      (run_jobs (update_column_prompt doneStore "c1" "Find the company")
        [editJob]).status = "completed" ∧
      (run_jobs (update_column_prompt doneStore "c1" "Find the company")
        [editJob]).results.length =
        doneStore.files.length * doneStore.columns.length) :=
  ⟨by decide,
    prompt_edit_resets_column doneStore "c1" "Find the company" [editJob]
      (by decide) (by decide) (by decide) (by decide) (by decide) (by decide)
      (by decide) (by decide)⟩

/-- C7: adding k new files to a review with C existing columns leaves the
stored Results untouched, enqueues exactly `k * C` jobs whose cell ids are
exactly the (new file, existing column) product, and — once those jobs are
processed — the previously stored rows are still present, unchanged, at the
front of the table (nothing was deleted or overwritten). -/
theorem add_files_preserves_results
    (st : Store) (requested : List String) (jobs : List Job)
    (hreq : requested.Nodup)
    (hcnd : (st.columns.map Column.id).Nodup)
    (hresfiles : ∀ r ∈ st.results, r.review_id = st.review_id → r.file_id ∈ st.files)
    (hreal : jobs.map toQueueItem =
      analyze_new_files_items (add_files_to_review st requested)
        (new_file_ids st requested))
    (hok : ∀ j ∈ jobs, jobOK j = true) :
    (add_files_to_review st requested).results = st.results ∧
    jobs.length = (new_file_ids st requested).length * st.columns.length ∧
    jobs.map jobCell =
      (new_file_ids st requested).bind
        (fun f => st.columns.map (fun c => (st.review_id, f, c.id))) ∧
    (run_jobs (add_files_to_review st requested) jobs).results =
      st.results ++ jobs.map mkRow := by
  have hst' : (add_files_to_review st requested).results = st.results ∧
      (add_files_to_review st requested).columns = st.columns ∧
      (add_files_to_review st requested).review_id = st.review_id := by
    unfold add_files_to_review
    by_cases h : new_file_ids st requested = []
    · rw [if_pos h]
      exact ⟨rfl, rfl, rfl⟩
    · rw [if_neg h]
      exact ⟨rfl, rfl, rfl⟩
  have hitems : analyze_new_files_items (add_files_to_review st requested)
      (new_file_ids st requested) =
      create_review_items st.review_id (new_file_ids st requested) st.columns := by
    show create_review_items (add_files_to_review st requested).review_id
        (new_file_ids st requested) (add_files_to_review st requested).columns = _
    rw [hst'.2.1, hst'.2.2]
  have hnewnd : (new_file_ids st requested).Nodup := hreq.filter _
  have hjcells : jobs.map jobCell =
      gridCells st.review_id (new_file_ids st requested) st.columns := by
    have h1 : jobs.map jobCell = (jobs.map toQueueItem).map itemCell := by
      rw [List.map_map]
      rfl
    rw [h1, hreal, hitems]
    rfl
  have hnd : (jobs.map jobCell).Nodup := by
    rw [hjcells]
    exact gridCells_nodup hnewnd hcnd
  have hfresh : ∀ j ∈ jobs, ∀ x ∈ st.results, cellId x ≠ jobCell j := by
    intro j hj x hx hcontra
    have hmem : jobCell j ∈ gridCells st.review_id (new_file_ids st requested)
        st.columns := by
      rw [← hjcells]
      exact List.mem_map.mpr ⟨j, hj, rfl⟩
    have hg := mem_gridCells hmem
    have hx1 : x.review_id = st.review_id := by
      have := congrArg Prod.fst hcontra
      simp only [cellId] at this
      rw [this]
      exact hg.1
    have hx2 : x.file_id ∈ new_file_ids st requested := by
      have := congrArg (fun p => p.2.1) hcontra
      simp only [cellId] at this
      rw [this]
      exact hg.2.1
    have hxin : x.file_id ∈ st.files := hresfiles x hx hx1
    have hxnot : x.file_id ∉ st.files := by
      simpa using (List.mem_filter.mp hx2).2
    exact hxnot hxin
  have hlenj : jobs.length = (new_file_ids st requested).length * st.columns.length := by
    have h := congrArg List.length hreal
    rw [List.length_map, hitems, create_review_items_length] at h
    exact h
  refine ⟨hst'.1, hlenj, by rw [hjcells, gridCells_eq], ?_⟩
  · have hfilter : jobs.filter jobOK = jobs := List.filter_eq_self.mpr hok
    have h := run_jobs_results (add_files_to_review st requested) jobs
      (by
        intro j hj _ x hx
        rw [hst'.1] at hx
        exact hfresh j hj x hx)
      (by rw [hfilter]; exact hnd)
    rw [hfilter, hst'.1] at h
    exact h

theorem add_files_preserves_results_witness :
    ((["f2"] : List String).Nodup ∧
      (doneStore.columns.map Column.id).Nodup ∧
      (∀ r ∈ doneStore.results, r.review_id = doneStore.review_id →
        r.file_id ∈ doneStore.files) ∧
      [addJob].map toQueueItem =
        analyze_new_files_items (add_files_to_review doneStore ["f2"])
          (new_file_ids doneStore ["f2"]) ∧
      (∀ j ∈ [addJob], jobOK j = true)) ∧
    ((add_files_to_review doneStore ["f2"]).results = doneStore.results ∧
      ([addJob] : List Job).length =
        (new_file_ids doneStore ["f2"]).length * doneStore.columns.length ∧
      [addJob].map jobCell =
        (new_file_ids doneStore ["f2"]).bind
          (fun f => doneStore.columns.map (fun c => (doneStore.review_id, f, c.id))) ∧
      (run_jobs (add_files_to_review doneStore ["f2"]) [addJob]).results =
        doneStore.results ++ [addJob].map mkRow) :=
  ⟨by decide,
    add_files_preserves_results doneStore ["f2"] [addJob]
      (by decide) (by decide) (by decide) (by decide) (by decide)⟩

/-- C8: with a worker pool of `K` threads, at most `K` submitted tasks are
running at any reachable moment; every task submitted to the module-level
executor is one Extraction Engine (Gemini) call, shared across all
reviews, and the source fixes `K` to `executor_max_workers = 20`. -/
theorem engine_calls_bounded_by_pool (K : Nat) (s : ExecState)
    (h : ExecReachable K s) :
    s.running ≤ K ∧ (K = executor_max_workers → s.running ≤ 20) := by
  have hmain : s.running ≤ K := by
    induction h with
    | refl => exact Nat.zero_le K
    | tail hab hstep ih =>
      cases hstep with
      | submit p r => exact ih
      | start p r hlt => exact hlt
      | finish p r => exact Nat.le_trans (Nat.le_succ r) ih
  exact ⟨hmain, fun hK => by rw [hK] at hmain; exact hmain⟩

theorem engine_calls_bounded_by_pool_witness :
    ExecReachable executor_max_workers ⟨0, 1⟩ ∧
    ((ExecState.mk 0 1).running ≤ executor_max_workers ∧
      (executor_max_workers = executor_max_workers →
        (ExecState.mk 0 1).running ≤ 20)) := by
  have hreach : ExecReachable executor_max_workers ⟨0, 1⟩ :=
    Relation.ReflTransGen.tail
      (Relation.ReflTransGen.tail Relation.ReflTransGen.refl (ExecStep.submit 0 0))
      (ExecStep.start 0 0 (by decide))
  exact ⟨hreach, engine_calls_bounded_by_pool executor_max_workers ⟨0, 1⟩ hreach⟩

/-- C9: the text handed to the Extraction Engine interpolates only
`content[:10000]`: the prompt built from any document equals the prompt
built from its first 10,000 characters, so text beyond position 10,000 can
never influence the extraction; and the interpolated document part is never
longer than 10,000 characters. -/
theorem prompt_truncated_to_10000
    (c₁ c₂ p cn dt : String)
    (h : pySlice c₁ 10000 = pySlice c₂ 10000) :
    analysis_prompt c₁ p cn dt = analysis_prompt c₂ p cn dt ∧
    analysis_prompt c₁ p cn dt =
      analysis_prompt (pySlice c₁ 10000) p cn dt ∧
    (pySlice c₁ 10000).length ≤ 10000 := by
  have hidem : ∀ s : String, pySlice (pySlice s 10000) 10000 = pySlice s 10000 := by
    intro s
    unfold pySlice
    show String.mk ((s.data.take 10000).take 10000) = String.mk (s.data.take 10000)
    rw [List.take_take]
    simp
  refine ⟨?_, ?_, ?_⟩
  · unfold analysis_prompt
    rw [h]
  · unfold analysis_prompt
    rw [hidem]
  · show (c₁.data.take 10000).length ≤ 10000
    rw [List.length_take]
    exact Nat.min_le_left _ _

theorem prompt_truncated_to_10000_witness :
    pySlice (String.mk (List.replicate 10001 'a')) 10000 =
      pySlice (String.mk (List.replicate 10000 'a')) 10000 ∧
    (analysis_prompt (String.mk (List.replicate 10001 'a')) "P" "N" "text" =
        analysis_prompt (String.mk (List.replicate 10000 'a')) "P" "N" "text" ∧
      analysis_prompt (String.mk (List.replicate 10001 'a')) "P" "N" "text" =
        analysis_prompt
          (pySlice (String.mk (List.replicate 10001 'a')) 10000) "P" "N" "text" ∧
      (pySlice (String.mk (List.replicate 10001 'a')) 10000).length ≤ 10000) := by
  have h : pySlice (String.mk (List.replicate 10001 'a')) 10000 =
      pySlice (String.mk (List.replicate 10000 'a')) 10000 := by
    unfold pySlice
    show String.mk ((List.replicate 10001 'a').take 10000) =
      String.mk ((List.replicate 10000 'a').take 10000)
    rw [List.take_replicate, List.take_replicate]
    norm_num
  exact ⟨h, prompt_truncated_to_10000 (String.mk (List.replicate 10001 'a'))
    (String.mk (List.replicate 10000 'a')) "P" "N" "text" h⟩

end TabularReview
